import Mathlib

/-!
Verification of the pyRevit `_basecomponents` module: the component-tree
model (GenericContainer / GenericCommand) and the layout reconciliation
algorithm embedded in `GenericContainer._process_components_per_layout`.

The Python code is shallowly embedded: the in-place list mutation of the
reconciliation loop becomes explicit state passing over `List`, the
`IndexError` that Python raises when `self._sub_components[i_index]` is
read out of range becomes an explicit error state, and the filesystem,
user-settings and script-metadata collaborators become explicit function
parameters.
-/

namespace PyRevit

/-- A sub-component as seen by layout reconciliation: the algorithm only
compares display names (`component.name == item`); `uid` distinguishes
physically different components that may share a display name. -/
structure Comp where
  name : String
  uid : Nat
deriving DecidableEq, Repr

/-- Swap of positions `i` and `j` of a list, as performed by the Python
tuple assignment `l[i], l[j] = l[j], l[i]`: both reads happen before both
writes.  If either index is out of range the list is returned unchanged
(the embedding only invokes it with both indices in range). -/
def swapList (l : List α) (i j : Nat) : List α :=
  match l[i]?, l[j]? with
  | some a, some b => (l.set i b).set j a
  | _, _ => l

/-- Outcome of the inner scan of `_process_components_per_layout` for a
single layout item: either the scan finished (with the flag recording
whether any match was found), or Python raised `IndexError` reading
`self._sub_components[i_index]` with `i_index` out of range; `err` keeps
the list state at the moment of the raise (in-place mutations persist). -/
inductive ScanOut (α : Type) where
  | ok (l : List α) (found : Bool)
  | err (l : List α)
deriving DecidableEq, Repr

/-- One iteration of the inner loop
`for cmp_index, component in enumerate(self._sub_components)`:
`j` is `cmp_index`, `i` is the enclosing `i_index`. The element compared
is the element currently at index `j` of the live, mutated list. -/
def scanStep (nm : α → String) (item : String) (i : Nat)
    (st : ScanOut α) (j : Nat) : ScanOut α :=
  match st with
  | .err l => .err l
  | .ok l found =>
    match l[j]? with
    | none => .ok l found
    | some c =>
      if nm c = item then
        if i < l.length then .ok (swapList l i j) true
        else .err l
      else .ok l found

/-- Runs `scanStep` over a list of inner indices. -/
def scanIdx (nm : α → String) (item : String) (i : Nat) :
    List Nat → ScanOut α → ScanOut α
  | [], st => st
  | j :: js, st => scanIdx nm item i js (scanStep nm item i st j)

/-- The full inner loop for one layout item: `enumerate` walks indices
`0 .. len-1` of the live list (its length never changes, swaps only). -/
def scanChildren (nm : α → String) (item : String) (i : Nat)
    (l : List α) : ScanOut α :=
  scanIdx nm item i (List.range l.length) (.ok l false)

/-- State of a reconciliation run: the (mutated) child list, the advisory
messages logged for layout items that matched no component, and whether
an `IndexError` was raised (after which nothing further executes). -/
structure RecState (α : Type) where
  children : List α
  advisories : List String
  error : Bool
deriving DecidableEq, Repr

/-- One iteration of the outer loop
`for i_index, item in enumerate(self.layout_list)`. -/
def layoutStep (nm : α → String) (st : RecState α)
    (i : Nat) (item : String) : RecState α :=
  if st.error then st
  else
    match scanChildren nm item i st.children with
    | .ok l true => { st with children := l }
    | .ok l false =>
        { st with children := l, advisories := st.advisories ++ [item] }
    | .err l => { st with children := l, error := true }

/-- Runs the outer loop over the layout items, `i` being the index
`enumerate` assigns to the head of `items`. -/
def processAux (nm : α → String) : Nat → List String → RecState α → RecState α
  | _, [], st => st
  | i, item :: items, st => processAux nm (i + 1) items (layoutStep nm st i item)

/-- `GenericContainer._process_components_per_layout`: the body only runs
when both the layout list and the child list are non-empty (Python
truthiness of `self.layout_list and self._sub_components`). -/
def process_components_per_layout (nm : α → String)
    (layout_list : List String) (children : List α) : RecState α :=
  if layout_list.isEmpty || children.isEmpty then ⟨children, [], false⟩
  else processAux nm 0 layout_list ⟨children, [], false⟩

/-- The index transposition a swap of positions `i` and `j` performs. -/
def idxMap (i j k : Nat) : Nat :=
  if k = i then j else if k = j then i else k

/-- The list carried by a scan outcome (the live child list, whether or
not an `IndexError` was raised). -/
def ScanOut.list : ScanOut α → List α
  | .ok l _ => l
  | .err l => l

/-- Display names identify positions uniquely: no two (distinct)
positions hold components with the same display name. -/
def NamesInj (nm : α → String) (l : List α) : Prop :=
  ∀ (k1 k2 : Nat) (x1 x2 : α), l[k1]? = some x1 → l[k2]? = some x2 →
    nm x1 = nm x2 → k1 = k2

/-- Positions `q` below `bound` whose layout entry names a component
present in `c` hold a component of that name. -/
def Placed (nm : α → String) (L : List String) (cs : List α)
    (bound : Nat) : Prop :=
  ∀ (q : Nat) (m : String), q < bound → L[q]? = some m →
    (∃ x ∈ cs, nm x = m) → ∃ x : α, cs[q]? = some x ∧ nm x = m

/-- Positions `q` at or above `low` whose layout entry names a component
present in `c` hold a component of that name. -/
def PlacedFrom (nm : α → String) (L : List String) (cs : List α)
    (low : Nat) : Prop :=
  ∀ (q : Nat) (m : String), low ≤ q → L[q]? = some m →
    (∃ x ∈ cs, nm x = m) → ∃ x : α, cs[q]? = some x ∧ nm x = m

/-! ## Path handling (`os.path` on a POSIX separator) -/

/-- Helper for `splitext`: splits a (separator-free) character list at its
last dot, returning `(stem, extension-starting-with-dot)`, or `none` when
there is no dot.  Mirrors `posixpath.splitext`'s search for the last dot. -/
def splitExtAux : List Char → Option (List Char × List Char)
  | [] => none
  | c :: cs =>
    match splitExtAux cs with
    | some (st, ex) => some (c :: st, ex)
    | none => if c = '.' then some ([], '.' :: cs) else none

/-- `os.path.splitext` restricted to separator-free strings (the code only
applies it to path segments and basenames): split at the last dot, unless
every character before that dot is itself a dot (leading dots are not an
extension), in which case the extension is empty. -/
def splitext (s : String) : String × String :=
  match splitExtAux s.toList with
  | some (st, ex) =>
    if st.any (fun c => c ≠ '.') then (⟨st⟩, ⟨ex⟩) else (s, "")
  | none => (s, "")

/-- Python `str.endswith`, code-point-wise (suffix test on the character
list; `String.endsWith` itself is not kernel-reducible). -/
def endswith (s suffix : String) : Bool :=
  List.isSuffixOf suffix.toList s.toList

/-- Python `str.startswith`, code-point-wise. -/
def startswith (s pre : String) : Bool :=
  List.isPrefixOf pre.toList s.toList

/-- Python `str.split('/')` on a character list: split on every
separator occurrence, keeping empty segments. -/
def splitSlashChars : List Char → List (List Char)
  | [] => [[]]
  | ch :: rest =>
    match splitSlashChars rest with
    | [] => [[]]
    | g :: gs => if ch = '/' then [] :: g :: gs else (ch :: g) :: gs

/-- Python `directory.split(op.sep)` with the POSIX separator. -/
def splitSlash (s : String) : List String :=
  (splitSlashChars s.toList).map (fun cs => ⟨cs⟩)

/-- `os.path.basename` on POSIX: the part after the last separator. -/
def basename (s : String) : String :=
  (splitSlash s).getLastD ""

/-- `os.path.join` on POSIX for two components. -/
def opJoin (a b : String) : String :=
  if startswith b "/" then b
  else if a = "" || endswith a "/" then a ++ b
  else a ++ "/" ++ b

/-- Modelled from the spec: `cleanup_string` lives in `.utils`, which is
not under `src/`; per the spec it "strips characters unsafe for an
identifier/class name (spaces, punctuation)".  Modelled as keeping only
alphanumeric characters and underscores. -/
def cleanup_string (s : String) : String :=
  ⟨s.toList.filter (fun c => c.isAlpha || c.isDigit || c = '_')⟩

/-! ## Component construction -/

/-- The errors `_basecomponents` raises during construction. -/
inductive PyRevitError where
  | UnknownFormat
  | NoScriptFile
deriving DecidableEq, Repr

/-- The file-name constants imported from `.config` (not under `src/`;
their concrete values do not matter to the claims, so they are passed
explicitly). -/
structure PyConfig where
  DEFAULT_ICON_FILE : String
  DEFAULT_SCRIPT_FILE : String
  DEFAULT_LAYOUT_FILE_NAME : String
  COMPONENT_LIB_NAME : String
  MIN_REVIT_VERSION_PARAM : String
  MIN_PYREVIT_VERSION_PARAM : String
  DOCSTRING_PARAM : String
  AUTHOR_PARAM : String

/-- The filesystem as the constructors observe it: existence checks and
line-wise reads (`readlines`). -/
structure FileSystem where
  pathExists : String → Bool
  readlines : String → List String

/-- The `user_settings.get_alias(original_name, type_id)` collaborator. -/
structure UserSettings where
  get_alias : String → String → String

/-- `GenericContainer._get_name` / `GenericCommand._get_name`:
`op.splitext(op.basename(self.directory))[0]`. -/
def get_name (directory : String) : String :=
  (splitext (basename directory)).1

/-- `_get_unique_name` (identical in `GenericContainer` and
`GenericCommand`): concatenate, over the segments of the directory split
on the path separator, each segment's stem whenever its extension is
non-empty, then sanitize. -/
def get_unique_name (directory : String) : String :=
  cleanup_string ((splitSlash directory).foldl
    (fun uname dname =>
      if (splitext dname).2 ≠ "" then uname ++ (splitext dname).1
      else uname) "")

/-- `_verify_file`: the bare file name when it exists inside the
directory, else `None`. -/
def verify_file (fs : FileSystem) (directory file_name : String) :
    Option String :=
  if fs.pathExists (opJoin directory file_name) then some file_name else none

/-- `GenericContainer._read_layout_file`: the layout file's lines with
every newline character removed, or `None` when the file is absent. -/
def read_layout_file (cfg : PyConfig) (fs : FileSystem)
    (directory : String) : Option (List String) :=
  if (verify_file fs directory cfg.DEFAULT_LAYOUT_FILE_NAME).isSome then
    some ((fs.readlines (opJoin directory cfg.DEFAULT_LAYOUT_FILE_NAME)).map
      (fun x => ⟨x.toList.filter (fun c => c ≠ '\n')⟩))
  else none

/-- The attributes `GenericContainer.__init__` sets. -/
structure GenericContainer where
  type_id : String
  directory : String
  original_name : String
  name : String
  unique_name : String
  library_path : String
  layout_list : Option (List String)
  icon_file : Option String
  sub_components : List Comp

/-- `GenericContainer.__init__`: validate the directory suffix, then
derive names, library path, layout list and icon; `_sub_components`
starts empty. -/
def GenericContainer.init (cfg : PyConfig) (us : UserSettings)
    (fs : FileSystem) (type_id branch_dir : String) :
    Except PyRevitError GenericContainer :=
  if endswith branch_dir type_id then
    .ok
      { type_id := type_id
        directory := branch_dir
        original_name := get_name branch_dir
        name := us.get_alias (get_name branch_dir) type_id
        unique_name := get_unique_name branch_dir
        library_path := opJoin branch_dir cfg.COMPONENT_LIB_NAME
        layout_list := read_layout_file cfg fs branch_dir
        icon_file := verify_file fs branch_dir cfg.DEFAULT_ICON_FILE
        sub_components := [] }
  else .error .UnknownFormat

/-- The attributes `GenericCommand.__init__` sets. -/
structure GenericCommand where
  type_id : String
  directory : String
  original_name : String
  name : String
  icon_file : Option String
  script_file : String
  min_pyrevit_ver : Option String
  min_revit_ver : Option String
  doc_string : Option String
  author : Option String
  unique_name : String
  library_path : String
  search_paths : List String

/-- `GenericCommand.__init__`: validate the directory suffix, require the
script file (its absence raises `PyRevitNoScriptFileError`), extract the
script parameters through the `ScriptFileContents` collaborator
(`extract_param`, keyed by full script path and parameter name), and set
up the unique name, library path and search paths. -/
def GenericCommand.init (cfg : PyConfig) (us : UserSettings)
    (fs : FileSystem) (extract_param : String → String → Option String)
    (type_id cmd_dir : String) : Except PyRevitError GenericCommand :=
  if endswith cmd_dir type_id then
    match verify_file fs cmd_dir cfg.DEFAULT_SCRIPT_FILE with
    | none => .error .NoScriptFile
    | some script_file =>
      let full := opJoin cmd_dir script_file
      .ok
        { type_id := type_id
          directory := cmd_dir
          original_name := get_name cmd_dir
          name := us.get_alias (get_name cmd_dir) type_id
          icon_file := verify_file fs cmd_dir cfg.DEFAULT_ICON_FILE
          script_file := script_file
          min_pyrevit_ver := extract_param full cfg.MIN_PYREVIT_VERSION_PARAM
          min_revit_ver := extract_param full cfg.MIN_REVIT_VERSION_PARAM
          doc_string := extract_param full cfg.DOCSTRING_PARAM
          author := extract_param full cfg.AUTHOR_PARAM
          unique_name := get_unique_name cmd_dir
          library_path := opJoin cmd_dir cfg.COMPONENT_LIB_NAME
          search_paths := [opJoin cmd_dir cfg.COMPONENT_LIB_NAME] }
  else .error .UnknownFormat

/-! ## `Tab.has_commands` and `Panel.has_commands` -/

/-- A panel as `Tab.has_commands` sees it: a display name (compared by
the tab's reconciliation) and its direct sub-components. -/
structure PanelM where
  name : String
  sub_components : List Comp
deriving DecidableEq, Repr

/-- `Panel.has_commands`: `True if len(self._sub_components) > 0 else
False` — a purely local, non-recursive count of direct children. -/
def PanelM.has_commands (p : PanelM) : Bool :=
  decide (0 < p.sub_components.length)

/-- A tab for the purposes of `Tab.has_commands`: its layout list (Python
`None` behaves as the empty list here) and its panels. -/
structure TabM where
  layout_list : List String
  panels : List PanelM
deriving DecidableEq, Repr

/-- `Tab.has_commands`: `for panel in self` first runs layout
reconciliation (`__iter__`), then returns `True` at the first panel whose
own (shallow) `has_commands` is true.  `none` models the `IndexError`
reconciliation can raise before any panel is yielded. -/
def TabM.has_commands (t : TabM) : Option Bool :=
  let st := process_components_per_layout PanelM.name t.layout_list t.panels
  if st.error then none else some (st.children.any PanelM.has_commands)

/-- The spec's description of the unique-name derivation: sanitize the
concatenation, over the path segments in order, of each segment's stem
whenever that segment has a non-empty extension. -/
def uniqueNameSpec (directory : String) : String :=
  cleanup_string (String.join ((splitSlash directory).filterMap
    (fun seg =>
      if (splitext seg).2 ≠ "" then some (splitext seg).1 else none)))

/-- A concrete configuration used to instantiate the construction
theorems on closed inputs (the claims hold for every configuration). -/
def trivConfig : PyConfig :=
  ⟨"icon.png", "script.py", "_layout", "Lib",
   "__min_req_revit_ver__", "__min_req_pyrevit_ver__",
   "__doc__", "__author__"⟩

/-- Alias resolution that changes nothing. -/
def trivSettings : UserSettings := ⟨fun n _ => n⟩

/-- A filesystem with no files at all. -/
def emptyFS : FileSystem := ⟨fun _ => false, fun _ => []⟩

/-- A filesystem holding exactly one file. -/
def oneFileFS (p : String) : FileSystem := ⟨fun q => q == p, fun _ => []⟩

/-- A script-metadata extractor that finds no parameters. -/
def noParams : String → String → Option String := fun _ _ => none

/-! ## Properties of `swapList` -/

theorem set_getElem_self {l : List α} {i : Nat} {a : α}
    (h : l[i]? = some a) : l.set i a = l := by
  induction l generalizing i with
  | nil => simp at h
  | cons x xs ih =>
    cases i with
    | zero => simp_all
    | succ n =>
      simp only [List.getElem?_cons_succ] at h
      simp [ih h]

theorem swapList_self {l : List α} {i : Nat} {a : α}
    (h : l[i]? = some a) : swapList l i i = l := by
  unfold swapList
  rw [h]
  simp only [List.set_set]
  exact set_getElem_self h

theorem length_swapList (l : List α) (i j : Nat) :
    (swapList l i j).length = l.length := by
  unfold swapList
  cases l[i]? <;> cases l[j]? <;> simp

theorem getElem?_swapList {l : List α} {i j : Nat}
    (hi : i < l.length) (hj : j < l.length) (k : Nat) :
    (swapList l i j)[k]? = l[idxMap i j k]? := by
  obtain ⟨a, ha⟩ : ∃ a, l[i]? = some a :=
    ⟨l[i], List.getElem?_eq_getElem hi⟩
  obtain ⟨b, hb⟩ : ∃ b, l[j]? = some b :=
    ⟨l[j], List.getElem?_eq_getElem hj⟩
  have hswap : swapList l i j = (l.set i b).set j a := by
    unfold swapList; rw [ha, hb]
  rw [hswap]
  unfold idxMap
  by_cases hkj : k = j
  · subst hkj
    rw [List.getElem?_set_self (by simpa using hj)]
    by_cases hki : k = i
    · subst hki
      simp only [if_pos rfl]
      exact ha.symm
    · rw [if_neg hki, if_pos rfl]
      exact ha.symm
  · rw [List.getElem?_set_ne (Ne.symm hkj)]
    by_cases hki : k = i
    · subst hki
      rw [List.getElem?_set_self (by simpa using hi), if_pos rfl]
      exact hb.symm
    · rw [List.getElem?_set_ne (Ne.symm hki), if_neg hki, if_neg hkj]

theorem idxMap_invol (i j k : Nat) : idxMap i j (idxMap i j k) = k := by
  unfold idxMap
  split_ifs <;> omega

theorem mem_swapList {l : List α} {i j : Nat}
    (hi : i < l.length) (hj : j < l.length) (x : α) :
    x ∈ swapList l i j ↔ x ∈ l := by
  rw [List.mem_iff_getElem?, List.mem_iff_getElem?]
  constructor
  · rintro ⟨n, hn⟩
    rw [getElem?_swapList hi hj] at hn
    exact ⟨idxMap i j n, hn⟩
  · rintro ⟨n, hn⟩
    refine ⟨idxMap i j n, ?_⟩
    rw [getElem?_swapList hi hj, idxMap_invol]
    exact hn

theorem namesInj_swapList {nm : α → String} {l : List α} {i j : Nat}
    (hi : i < l.length) (hj : j < l.length) (h : NamesInj nm l) :
    NamesInj nm (swapList l i j) := by
  intro k1 k2 x1 x2 h1 h2 hnm
  rw [getElem?_swapList hi hj] at h1 h2
  have heq := h _ _ _ _ h1 h2 hnm
  have heq2 := congrArg (idxMap i j) heq
  rwa [idxMap_invol, idxMap_invol] at heq2

theorem namesInj_of_nodup_map {nm : α → String} {l : List α}
    (h : (l.map nm).Nodup) : NamesInj nm l := by
  intro k1 k2 x1 x2 h1 h2 hnm
  have e1 : (l.map nm)[k1]? = some (nm x1) := by
    rw [List.getElem?_map, h1]; rfl
  have e2 : (l.map nm)[k2]? = some (nm x2) := by
    rw [List.getElem?_map, h2]; rfl
  refine List.getElem?_inj ?_ h (e1.trans ?_)
  · rw [List.length_map]
    exact (List.getElem?_eq_some_iff.mp h1).1
  · rw [e2, hnm]

/-! ## Properties of the inner scan -/

theorem scanIdx_err (nm : α → String) (item : String) (i : Nat)
    (js : List Nat) (l : List α) :
    scanIdx nm item i js (.err l) = .err l := by
  induction js with
  | nil => rfl
  | cons j js ih => rw [scanIdx, scanStep, ih]

theorem scanIdx_append (nm : α → String) (item : String) (i : Nat)
    (js1 js2 : List Nat) (st : ScanOut α) :
    scanIdx nm item i (js1 ++ js2) st =
      scanIdx nm item i js2 (scanIdx nm item i js1 st) := by
  induction js1 generalizing st with
  | nil => rfl
  | cons j js ih => rw [List.cons_append, scanIdx, scanIdx, ih]

theorem scanIdx_no_match {nm : α → String} {item : String} {i : Nat}
    {js : List Nat} {l : List α} {found : Bool}
    (h : ∀ k ∈ js, ∀ x : α, l[k]? = some x → nm x ≠ item) :
    scanIdx nm item i js (.ok l found) = .ok l found := by
  induction js with
  | nil => rfl
  | cons j js ih =>
    have hstep : scanStep nm item i (.ok l found) j = .ok l found := by
      rw [scanStep]
      cases hj : l[j]? with
      | none => rfl
      | some x => simp [h j (by simp) x hj]
    rw [scanIdx, hstep]
    exact ih (fun k hk => h k (List.mem_cons_of_mem j hk))

theorem scanIdx_noop_match {nm : α → String} {item : String} {i : Nat}
    {js : List Nat} {l : List α}
    (h : ∀ k ∈ js, ∀ x : α, l[k]? = some x → nm x = item →
      i < l.length ∧ swapList l i k = l) :
    scanIdx nm item i js (.ok l true) = .ok l true := by
  induction js with
  | nil => rfl
  | cons j js ih =>
    have hstep : scanStep nm item i (.ok l true) j = .ok l true := by
      rw [scanStep]
      cases hj : l[j]? with
      | none => rfl
      | some x =>
        by_cases hx : nm x = item
        · obtain ⟨hlen, hswap⟩ := h j (by simp) x hj hx
          simp [hx, hlen, hswap]
        · simp [hx]
    rw [scanIdx, hstep]
    exact ih (fun k hk => h k (List.mem_cons_of_mem j hk))

theorem scanIdx_err_of_match {nm : α → String} {item : String} {i : Nat}
    {js : List Nat} {l : List α} {found : Bool} {k : Nat} {x : α}
    (hi : ¬ i < l.length) (hk : k ∈ js) (hx : l[k]? = some x)
    (hnm : nm x = item) :
    scanIdx nm item i js (.ok l found) = .err l := by
  induction js generalizing found with
  | nil => simp at hk
  | cons j js ih =>
    rw [scanIdx]
    rcases List.mem_cons.mp hk with hkj | hkj
    · subst hkj
      have hstep : scanStep nm item i (.ok l found) k = .err l := by
        rw [scanStep, hx]
        simp [hnm, hi]
      rw [hstep, scanIdx_err]
    · cases hj : l[j]? with
      | none =>
        have hstep : scanStep nm item i (.ok l found) j = .ok l found := by
          rw [scanStep, hj]
        rw [hstep]
        exact ih hkj
      | some y =>
        by_cases hy : nm y = item
        · have hstep : scanStep nm item i (.ok l found) j = .err l := by
            rw [scanStep, hj]
            simp [hy, hi]
          rw [hstep, scanIdx_err]
        · have hstep : scanStep nm item i (.ok l found) j = .ok l found := by
            rw [scanStep, hj]
            simp [hy]
          rw [hstep]
          exact ih hkj

theorem scanIdx_ok_of_lt {nm : α → String} {item : String} {i : Nat}
    {js : List Nat} {l : List α} {found : Bool}
    (hi : i < l.length) :
    ∃ (l2 : List α) (f2 : Bool),
      scanIdx nm item i js (.ok l found) = .ok l2 f2 := by
  induction js generalizing l found with
  | nil => exact ⟨l, found, rfl⟩
  | cons j js ih =>
    rw [scanIdx]
    cases hj : l[j]? with
    | none =>
      have hstep : scanStep nm item i (.ok l found) j = .ok l found := by
        rw [scanStep, hj]
      rw [hstep]
      exact ih hi
    | some x =>
      by_cases hx : nm x = item
      · have hstep : scanStep nm item i (.ok l found) j =
            .ok (swapList l i j) true := by
          rw [scanStep, hj]
          simp [hx, hi]
        rw [hstep]
        exact ih (by rw [length_swapList]; exact hi)
      · have hstep : scanStep nm item i (.ok l found) j = .ok l found := by
          rw [scanStep, hj]
          simp [hx]
        rw [hstep]
        exact ih hi

theorem scanStep_list (nm : α → String) (item : String) (i : Nat)
    (st : ScanOut α) (j : Nat) :
    (scanStep nm item i st j).list.length = st.list.length ∧
    (∀ x : α, x ∈ (scanStep nm item i st j).list ↔ x ∈ st.list) ∧
    (NamesInj nm st.list → NamesInj nm (scanStep nm item i st j).list) := by
  cases st with
  | err l => exact ⟨rfl, fun _ => Iff.rfl, id⟩
  | ok l f =>
    cases hj : l[j]? with
    | none =>
      have hstep : scanStep nm item i (.ok l f) j = .ok l f := by
        rw [scanStep, hj]
      rw [hstep]
      exact ⟨rfl, fun _ => Iff.rfl, id⟩
    | some x =>
      by_cases hx : nm x = item
      · by_cases hi : i < l.length
        · have hjl : j < l.length := (List.getElem?_eq_some_iff.mp hj).1
          have hstep : scanStep nm item i (.ok l f) j =
              .ok (swapList l i j) true := by
            rw [scanStep, hj]; simp [hx, hi]
          rw [hstep]
          exact ⟨length_swapList l i j,
            fun y => mem_swapList hi hjl y,
            fun h => namesInj_swapList hi hjl h⟩
        · have hstep : scanStep nm item i (.ok l f) j = .err l := by
            rw [scanStep, hj]; simp [hx, hi]
          rw [hstep]
          exact ⟨rfl, fun _ => Iff.rfl, id⟩
      · have hstep : scanStep nm item i (.ok l f) j = .ok l f := by
          rw [scanStep, hj]; simp [hx]
        rw [hstep]
        exact ⟨rfl, fun _ => Iff.rfl, id⟩

theorem scanIdx_list (nm : α → String) (item : String) (i : Nat)
    (js : List Nat) (st : ScanOut α) :
    (scanIdx nm item i js st).list.length = st.list.length ∧
    (∀ x : α, x ∈ (scanIdx nm item i js st).list ↔ x ∈ st.list) ∧
    (NamesInj nm st.list → NamesInj nm (scanIdx nm item i js st).list) := by
  induction js generalizing st with
  | nil => exact ⟨rfl, fun _ => Iff.rfl, id⟩
  | cons j js ih =>
    obtain ⟨h1, h2, h3⟩ := scanStep_list nm item i st j
    obtain ⟨ih1, ih2, ih3⟩ := ih (scanStep nm item i st j)
    exact ⟨by rw [scanIdx, ih1, h1],
      fun x => by rw [scanIdx]; exact (ih2 x).trans (h2 x),
      fun h => by rw [scanIdx]; exact ih3 (h3 h)⟩

/-! ## Characterization of `scanChildren` -/

theorem scanChildren_no_match {nm : α → String} {item : String} {i : Nat}
    {l : List α} (h : ∀ x ∈ l, nm x ≠ item) :
    scanChildren nm item i l = .ok l false := by
  unfold scanChildren
  exact scanIdx_no_match (fun k _ x hx =>
    h x (List.mem_iff_getElem?.mpr ⟨k, hx⟩))

theorem scanChildren_err {nm : α → String} {item : String} {i : Nat}
    {l : List α} {k : Nat} {x : α}
    (hi : ¬ i < l.length) (hx : l[k]? = some x) (hnm : nm x = item) :
    scanChildren nm item i l = .err l := by
  unfold scanChildren
  exact scanIdx_err_of_match hi
    (List.mem_range.mpr (List.getElem?_eq_some_iff.mp hx).1) hx hnm

theorem scanChildren_ok_of_lt (nm : α → String) (item : String)
    {i : Nat} {l : List α} (hi : i < l.length) :
    ∃ (l2 : List α) (f2 : Bool), scanChildren nm item i l = .ok l2 f2 :=
  scanIdx_ok_of_lt hi

theorem scanChildren_found {nm : α → String} {item : String} {i j : Nat}
    {l : List α} {x : α}
    (hinj : NamesInj nm l) (hj : l[j]? = some x) (hx : nm x = item)
    (hi : i < l.length) :
    scanChildren nm item i l = .ok (swapList l i j) true := by
  have hjl : j < l.length := (List.getElem?_eq_some_iff.mp hj).1
  have hsplit : List.range l.length =
      List.range' 0 j ++ j :: List.range' (j + 1) (l.length - j - 1) := by
    have e1 : List.range' 0 j ++
          List.range' (0 + 1 * j) (l.length - j - 1 + 1) 1 =
        List.range' 0 ((l.length - j - 1 + 1) + j) 1 :=
      List.range'_append 0 j _ 1
    have e2 : (l.length - j - 1 + 1) + j = l.length := by omega
    rw [e2] at e1
    rw [List.range_eq_range', ← e1]
    have e3 : 0 + 1 * j = j := by omega
    rw [e3, List.range'_succ]
  unfold scanChildren
  rw [hsplit, scanIdx_append]
  have h1 : scanIdx nm item i (List.range' 0 j) (.ok l false) =
      .ok l false := by
    apply scanIdx_no_match
    intro k hk y hy hny
    obtain ⟨w, hw, hkw⟩ := List.mem_range'.mp hk
    have := hinj k j y x hy hj (hny.trans hx.symm)
    omega
  rw [h1, scanIdx]
  have hstep : scanStep nm item i (.ok l false) j =
      .ok (swapList l i j) true := by
    rw [scanStep, hj]
    simp [hx, hi]
  rw [hstep]
  apply scanIdx_noop_match
  intro k hk y hy hity
  obtain ⟨w, hw, hkw⟩ := List.mem_range'.mp hk
  have hkj : j + 1 ≤ k ∧ k < l.length := by omega
  rw [getElem?_swapList hi hjl] at hy
  by_cases hki : k = i
  · subst hki
    have hmap : idxMap k j k = j := by unfold idxMap; simp
    refine ⟨by rw [length_swapList]; exact hi, ?_⟩
    apply swapList_self
    rw [getElem?_swapList hi hjl, hmap]
    exact hj
  · have hmap : idxMap i j k = k := by
      unfold idxMap; split_ifs <;> omega
    rw [hmap] at hy
    have := hinj k j y x hy hj (hity.trans hx.symm)
    omega

/-! ## Properties of the outer loop -/

theorem processAux_error {nm : α → String} (i : Nat) (items : List String)
    (st : RecState α) (h : st.error = true) :
    processAux nm i items st = st := by
  induction items generalizing i with
  | nil => rfl
  | cons item items ih =>
    rw [processAux, layoutStep, if_pos h]
    exact ih (i + 1)

theorem layoutStep_of_scan_ok_true {nm : α → String} {st : RecState α}
    {i : Nat} {item : String} {l : List α}
    (he : st.error = false)
    (hscan : scanChildren nm item i st.children = .ok l true) :
    layoutStep nm st i item =
      { children := l, advisories := st.advisories, error := false } := by
  obtain ⟨c0, adv0, e0⟩ := st
  simp only at he
  subst he
  rw [layoutStep]
  simp [hscan]

theorem layoutStep_of_scan_ok_false {nm : α → String} {st : RecState α}
    {i : Nat} {item : String} {l : List α}
    (he : st.error = false)
    (hscan : scanChildren nm item i st.children = .ok l false) :
    layoutStep nm st i item =
      { children := l, advisories := st.advisories ++ [item],
        error := false } := by
  obtain ⟨c0, adv0, e0⟩ := st
  simp only at he
  subst he
  rw [layoutStep]
  simp [hscan]

theorem layoutStep_of_scan_err {nm : α → String} {st : RecState α}
    {i : Nat} {item : String} {l : List α}
    (he : st.error = false)
    (hscan : scanChildren nm item i st.children = .err l) :
    layoutStep nm st i item =
      { children := l, advisories := st.advisories, error := true } := by
  obtain ⟨c0, adv0, e0⟩ := st
  simp only at he
  subst he
  rw [layoutStep]
  simp [hscan]

theorem processAux_list {nm : α → String} (items : List String) (i : Nat)
    (st : RecState α) :
    (processAux nm i items st).children.length = st.children.length ∧
    (∀ x : α, x ∈ (processAux nm i items st).children ↔ x ∈ st.children) ∧
    (NamesInj nm st.children →
      NamesInj nm (processAux nm i items st).children) := by
  induction items generalizing i st with
  | nil => exact ⟨rfl, fun _ => Iff.rfl, id⟩
  | cons item items ih =>
    rw [processAux]
    obtain ⟨ih1, ih2, ih3⟩ := ih (i + 1) (layoutStep nm st i item)
    have hstep : (layoutStep nm st i item).children.length =
        st.children.length ∧
        (∀ x : α, x ∈ (layoutStep nm st i item).children ↔
          x ∈ st.children) ∧
        (NamesInj nm st.children →
          NamesInj nm (layoutStep nm st i item).children) := by
      rw [layoutStep]
      cases he : st.error with
      | true => exact ⟨rfl, fun _ => Iff.rfl, id⟩
      | false =>
        simp only [Bool.false_eq_true, if_false]
        obtain ⟨s1, s2, s3⟩ := scanIdx_list nm item i
          (List.range st.children.length) (.ok st.children false)
        cases hscan : scanChildren nm item i st.children with
        | ok l f =>
          unfold scanChildren at hscan
          rw [hscan] at s1 s2 s3
          cases f <;> exact ⟨s1, s2, s3⟩
        | err l =>
          unfold scanChildren at hscan
          rw [hscan] at s1 s2 s3
          exact ⟨s1, s2, s3⟩
    exact ⟨ih1.trans hstep.1,
      fun x => (ih2 x).trans (hstep.2.1 x),
      fun h => ih3 (hstep.2.2 h)⟩

theorem processAux_no_oob_match {nm : α → String} :
    ∀ (items : List String) (i : Nat) (cs : List α) (adv : List String),
    (∀ (j : Nat) (item : String), items[j]? = some item →
      cs.length ≤ i + j → ∀ x ∈ cs, nm x ≠ item) →
    (processAux nm i items ⟨cs, adv, false⟩).error = false := by
  intro items
  induction items with
  | nil => intro i cs adv _; rfl
  | cons item items ih =>
    intro i cs adv h
    rw [processAux]
    by_cases hi : i < cs.length
    · obtain ⟨l2, f2, hscan⟩ := scanChildren_ok_of_lt nm item hi
      obtain ⟨s1, s2, _⟩ := scanIdx_list nm item i
        (List.range cs.length) (.ok cs false)
      have hscan2 : scanIdx nm item i (List.range cs.length)
          (.ok cs false) = .ok l2 f2 := hscan
      rw [hscan2] at s1 s2
      have htrans : ∀ (j : Nat) (it : String), items[j]? = some it →
          l2.length ≤ (i + 1) + j → ∀ x ∈ l2, nm x ≠ it := by
        intro j it hj hlen x hx
        refine h (j + 1) it (by simpa using hj) ?_ x ((s2 x).mp hx)
        simp only [ScanOut.list] at s1
        omega
      cases f2 with
      | true =>
        rw [layoutStep_of_scan_ok_true rfl hscan]
        exact ih (i + 1) l2 adv htrans
      | false =>
        rw [layoutStep_of_scan_ok_false rfl hscan]
        exact ih (i + 1) l2 (adv ++ [item]) htrans
    · have hno : ∀ x ∈ cs, nm x ≠ item := by
        intro x hx
        exact h 0 item (by simp) (by omega) x hx
      rw [layoutStep_of_scan_ok_false rfl (scanChildren_no_match hno)]
      refine ih (i + 1) cs (adv ++ [item]) ?_
      intro j it hj hlen x hx
      exact h (j + 1) it (by simpa using hj) (by omega) x hx

/-! ## The reconciliation run as a placement of named components -/

theorem drop_head_getElem? {L : List String} {k : Nat} {item : String}
    {rest : List String} (hdrop : item :: rest = L.drop k) :
    L[k]? = some item ∧ rest = L.drop (k + 1) := by
  constructor
  · have h0 := List.getElem?_drop L k 0
    rw [← hdrop] at h0
    simpa using h0.symm
  · have h1 : (L.drop k).drop 1 = L.drop (k + 1) := by
      rw [List.drop_drop]
    rw [← hdrop] at h1
    simpa using h1

theorem processAux_run1 {nm : α → String} {L : List String}
    (hL : L.Nodup) :
    ∀ (rest : List String) (k : Nat) (cs : List α) (adv : List String),
    rest = L.drop k → NamesInj nm cs → Placed nm L cs k →
    (processAux nm k rest ⟨cs, adv, false⟩).error = false →
    NamesInj nm (processAux nm k rest ⟨cs, adv, false⟩).children ∧
    (∀ x : α, x ∈ (processAux nm k rest ⟨cs, adv, false⟩).children ↔
      x ∈ cs) ∧
    Placed nm L (processAux nm k rest ⟨cs, adv, false⟩).children
      L.length := by
  intro rest
  induction rest with
  | nil =>
    intro k cs adv hdrop hinj hplaced _
    refine ⟨hinj, fun _ => Iff.rfl, ?_⟩
    have hk : L.length ≤ k := by
      by_contra hlt
      push_neg at hlt
      have hne : L.drop k ≠ [] := by
        intro hnil
        have := List.length_drop k L
        rw [hnil] at this
        simp at this
        omega
      exact hne hdrop.symm
    intro q m hq hLq hex
    exact hplaced q m (by omega) hLq hex
  | cons item rest ih =>
    intro k cs adv hdrop hinj hplaced herr
    obtain ⟨hLk, hrest⟩ := drop_head_getElem? hdrop
    rw [processAux] at herr ⊢
    by_cases hex : ∃ x ∈ cs, nm x = item
    · obtain ⟨x, hxc, hxnm⟩ := hex
      obtain ⟨j, hj⟩ := List.mem_iff_getElem?.mp hxc
      have hjl : j < cs.length := (List.getElem?_eq_some_iff.mp hj).1
      by_cases hk : k < cs.length
      · have hscan := scanChildren_found hinj hj hxnm hk
        rw [layoutStep_of_scan_ok_true rfl hscan] at herr ⊢
        have hinj2 : NamesInj nm (swapList cs k j) :=
          namesInj_swapList hk hjl hinj
        have hplaced2 : Placed nm L (swapList cs k j) (k + 1) := by
          intro q m hq hLq hexq
          have hexc : ∃ y ∈ cs, nm y = m := by
            obtain ⟨y, hy, hynm⟩ := hexq
            exact ⟨y, (mem_swapList hk hjl y).mp hy, hynm⟩
          by_cases hqk : q = k
          · have hm : m = item := by
              rw [hqk] at hLq
              exact (Option.some.inj (hLk.symm.trans hLq)).symm
            refine ⟨x, ?_, by rw [hxnm, hm]⟩
            rw [getElem?_swapList hk hjl]
            have hmap : idxMap k j q = j := by
              unfold idxMap; simp [hqk]
            rw [hmap]
            exact hj
          · have hqk2 : q < k := by omega
            obtain ⟨y, hyq, hynm⟩ := hplaced q m hqk2 hLq hexc
            refine ⟨y, ?_, hynm⟩
            rw [getElem?_swapList hk hjl]
            have hqj : q ≠ j := by
              intro hqj
              subst hqj
              rw [hj] at hyq
              have hyx : y = x := (Option.some.inj hyq).symm
              have hmitem : m = item := by
                rw [← hynm, hyx, hxnm]
              rw [hmitem] at hLq
              have hqlen : q < L.length :=
                (List.getElem?_eq_some_iff.mp hLq).1
              have := List.getElem?_inj hqlen hL (hLq.trans hLk.symm)
              omega
            have hmap : idxMap k j q = q := by
              unfold idxMap
              rw [if_neg hqk, if_neg hqj]
            rw [hmap]
            exact hyq
        obtain ⟨r1, r2, r3⟩ := ih (k + 1) (swapList cs k j) adv hrest
          hinj2 hplaced2 herr
        exact ⟨r1,
          fun y => (r2 y).trans (mem_swapList hk hjl y), r3⟩
      · have hscan := scanChildren_err
          (show ¬ k < cs.length by omega) hj hxnm
        rw [layoutStep_of_scan_err rfl hscan] at herr
        rw [processAux_error _ _ _ rfl] at herr
        simp at herr
    · have hno : ∀ y ∈ cs, nm y ≠ item := by
        intro y hy hcon
        exact hex ⟨y, hy, hcon⟩
      rw [layoutStep_of_scan_ok_false rfl (scanChildren_no_match hno)]
        at herr ⊢
      have hplaced2 : Placed nm L cs (k + 1) := by
        intro q m hq hLq hexq
        by_cases hqk : q = k
        · subst hqk
          have hm : m = item := by
            rw [hLq] at hLk
            exact Option.some.inj hLk
          rw [hm] at hexq
          exact absurd hexq hex
        · exact hplaced q m (by omega) hLq hexq
      exact ih (k + 1) cs (adv ++ [item]) hrest hinj hplaced2 herr

theorem processAux_run2 {nm : α → String} (L : List String) :
    ∀ (rest : List String) (k : Nat) (cs : List α) (adv : List String),
    rest = L.drop k → NamesInj nm cs → PlacedFrom nm L cs k →
    (processAux nm k rest ⟨cs, adv, false⟩).children = cs ∧
    (processAux nm k rest ⟨cs, adv, false⟩).error = false := by
  intro rest
  induction rest with
  | nil => intro k cs adv _ _ _; exact ⟨rfl, rfl⟩
  | cons item rest ih =>
    intro k cs adv hdrop hinj hpf
    obtain ⟨hLk, hrest⟩ := drop_head_getElem? hdrop
    rw [processAux]
    by_cases hex : ∃ x ∈ cs, nm x = item
    · obtain ⟨x, hxk, hxnm⟩ := hpf k item le_rfl hLk hex
      have hk : k < cs.length := (List.getElem?_eq_some_iff.mp hxk).1
      have hscan := scanChildren_found hinj hxk hxnm hk
      rw [swapList_self hxk] at hscan
      rw [layoutStep_of_scan_ok_true rfl hscan]
      exact ih (k + 1) cs adv hrest hinj
        (fun q m hq => hpf q m (by omega))
    · have hno : ∀ y ∈ cs, nm y ≠ item := by
        intro y hy hcon
        exact hex ⟨y, hy, hcon⟩
      rw [layoutStep_of_scan_ok_false rfl (scanChildren_no_match hno)]
      exact ih (k + 1) cs (adv ++ [item]) hrest hinj
        (fun q m hq => hpf q m (by omega))

/-! ## Whole-run properties of `process_components_per_layout` -/

theorem process_eq_aux (nm : α → String) {layout : List String}
    {cs : List α} (hg : ¬(layout.isEmpty || cs.isEmpty) = true) :
    process_components_per_layout nm layout cs =
      processAux nm 0 layout ⟨cs, [], false⟩ := by
  unfold process_components_per_layout
  rw [if_neg hg]

theorem process_children_mem {nm : α → String} (layout : List String)
    (cs : List α) (x : α) :
    x ∈ (process_components_per_layout nm layout cs).children ↔
      x ∈ cs := by
  unfold process_components_per_layout
  by_cases hg : (layout.isEmpty || cs.isEmpty) = true
  · rw [if_pos hg]
  · rw [if_neg hg]
    exact (processAux_list layout 0 _).2.1 x

theorem process_idem {nm : α → String} {layout : List String}
    {cs : List α} (hnames : NamesInj nm cs) (hlayout : layout.Nodup)
    (herr : (process_components_per_layout nm layout cs).error = false) :
    (process_components_per_layout nm layout
        ((process_components_per_layout nm layout cs).children)).children =
      (process_components_per_layout nm layout cs).children ∧
    (process_components_per_layout nm layout
        ((process_components_per_layout nm layout cs).children)).error =
      false := by
  by_cases hg : (layout.isEmpty || cs.isEmpty) = true
  · have h1 : process_components_per_layout nm layout cs =
        ⟨cs, [], false⟩ := by
      unfold process_components_per_layout
      rw [if_pos hg]
    rw [h1]
    have h2 : process_components_per_layout nm layout cs =
        ⟨cs, [], false⟩ := h1
    rw [h1] at h2
    unfold process_components_per_layout
    rw [if_pos hg]
    exact ⟨rfl, rfl⟩
  · have e1 := process_eq_aux nm hg
    have hcs : cs ≠ [] := by
      intro hnil
      apply hg
      rw [hnil]
      simp
    obtain ⟨r1, r2, r3⟩ := processAux_run1 hlayout layout 0 cs []
      (List.drop_zero layout).symm hnames
      (fun q m hq _ _ => absurd hq (Nat.not_lt_zero q))
      (by rw [← e1]; exact herr)
    have hylen : (processAux nm 0 layout
        (⟨cs, [], false⟩ : RecState α)).children.length = cs.length :=
      (processAux_list layout 0 _).1
    have hyne : (processAux nm 0 layout
        (⟨cs, [], false⟩ : RecState α)).children ≠ [] := by
      intro hnil
      rw [hnil] at hylen
      exact hcs (List.length_eq_zero.mp hylen.symm)
    have hg2 : ¬((layout.isEmpty ||
        (processAux nm 0 layout
          (⟨cs, [], false⟩ : RecState α)).children.isEmpty) = true) := by
      rw [Bool.or_eq_true]
      rintro (h | h)
      · exact hg (by rw [h]; simp)
      · exact hyne (List.isEmpty_iff.mp h)
    have e2 := process_eq_aux nm hg2
    have hpf : PlacedFrom nm layout
        (processAux nm 0 layout (⟨cs, [], false⟩ : RecState α)).children
        0 := by
      intro q m _ hLq hexq
      exact r3 q m (List.getElem?_eq_some_iff.mp hLq).1 hLq hexq
    obtain ⟨s1, s2⟩ := processAux_run2 layout layout 0
      (processAux nm 0 layout (⟨cs, [], false⟩ : RecState α)).children []
      (List.drop_zero layout).symm r1 hpf
    rw [e1, e2]
    exact ⟨s1, s2⟩

/-! ## Properties of `splitext` and the unique-name derivation -/

theorem splitExtAux_no_dot (cs : List Char) (h : ∀ c ∈ cs, c ≠ '.') :
    splitExtAux cs = none := by
  induction cs with
  | nil => rfl
  | cons c cs ih =>
    rw [splitExtAux, ih (fun d hd => h d (List.mem_cons_of_mem c hd))]
    simp [h c (by simp)]

theorem splitExtAux_last_dot (cs ds : List Char)
    (h : ∀ c ∈ ds, c ≠ '.') :
    splitExtAux (cs ++ '.' :: ds) = some (cs, '.' :: ds) := by
  induction cs with
  | nil =>
    rw [List.nil_append, splitExtAux, splitExtAux_no_dot ds h]
    simp
  | cons c cs ih =>
    rw [List.cons_append, splitExtAux, ih]

theorem splitext_stem_ext (stem ext : String)
    (hext : ∃ cs : List Char, ext.toList = '.' :: cs ∧ ∀ c ∈ cs, c ≠ '.')
    (hstem : ∃ c ∈ stem.toList, c ≠ '.') :
    splitext (stem ++ ext) = (stem, ext) := by
  obtain ⟨cs, hcs, hnd⟩ := hext
  have htl : (stem ++ ext).toList = stem.toList ++ '.' :: cs := by
    show (stem ++ ext).data = stem.data ++ '.' :: cs
    rw [String.data_append]
    congr 1
  rw [splitext, htl, splitExtAux_last_dot _ _ hnd]
  have hany : stem.toList.any (fun c => decide (c ≠ '.')) = true := by
    rw [List.any_eq_true]
    obtain ⟨c, hc, hcd⟩ := hstem
    exact ⟨c, hc, by simpa using hcd⟩
  simp only [hany, if_pos]
  have h2 : String.mk ('.' :: cs) = ext := by
    rw [← hcs]
    cases ext
    rfl
  rw [Prod.mk.injEq]
  exact ⟨rfl, h2⟩

theorem string_join_cons (s : String) (ss : List String) :
    String.join (s :: ss) = s ++ String.join ss := by
  apply String.ext
  rw [String.join_eq, String.join_eq, String.data_append]
  simp

theorem foldl_stems (segs : List String) (acc : String) :
    segs.foldl (fun uname dname =>
        if (splitext dname).2 ≠ "" then uname ++ (splitext dname).1
        else uname) acc =
      acc ++ String.join (segs.filterMap (fun seg =>
        if (splitext seg).2 ≠ "" then some (splitext seg).1 else none)) := by
  induction segs generalizing acc with
  | nil => simp [String.join, String.append_empty]
  | cons s ss ih =>
    rw [List.foldl_cons]
    by_cases h : (splitext s).2 = ""
    · rw [if_neg (by simp [h]), ih acc]
      congr 1
      rw [List.filterMap_cons]
      simp [h]
    · rw [if_pos h, ih (acc ++ (splitext s).1), String.append_assoc]
      congr 1
      rw [List.filterMap_cons]
      simp [h, string_join_cons]

/-! ## Construction-time behaviour -/

theorem container_init_invalid (cfg : PyConfig) (us : UserSettings)
    (fs : FileSystem) (type_id dir : String)
    (h : endswith dir type_id = false) :
    GenericContainer.init cfg us fs type_id dir =
      .error .UnknownFormat := by
  unfold GenericContainer.init
  rw [h]
  rfl

theorem container_init_valid (cfg : PyConfig) (us : UserSettings)
    (fs : FileSystem) (type_id dir : String)
    (h : endswith dir type_id = true) :
    GenericContainer.init cfg us fs type_id dir =
      .ok
        { type_id := type_id
          directory := dir
          original_name := get_name dir
          name := us.get_alias (get_name dir) type_id
          unique_name := get_unique_name dir
          library_path := opJoin dir cfg.COMPONENT_LIB_NAME
          layout_list := read_layout_file cfg fs dir
          icon_file := verify_file fs dir cfg.DEFAULT_ICON_FILE
          sub_components := [] } := by
  unfold GenericContainer.init
  rw [h]
  rfl

theorem command_init_valid (cfg : PyConfig) (us : UserSettings)
    (fs : FileSystem) (ep : String → String → Option String)
    (type_id dir : String)
    (h : endswith dir type_id = true)
    (hs : fs.pathExists (opJoin dir cfg.DEFAULT_SCRIPT_FILE) = true) :
    GenericCommand.init cfg us fs ep type_id dir =
      .ok
        { type_id := type_id
          directory := dir
          original_name := get_name dir
          name := us.get_alias (get_name dir) type_id
          icon_file := verify_file fs dir cfg.DEFAULT_ICON_FILE
          script_file := cfg.DEFAULT_SCRIPT_FILE
          min_pyrevit_ver := ep (opJoin dir cfg.DEFAULT_SCRIPT_FILE)
            cfg.MIN_PYREVIT_VERSION_PARAM
          min_revit_ver := ep (opJoin dir cfg.DEFAULT_SCRIPT_FILE)
            cfg.MIN_REVIT_VERSION_PARAM
          doc_string := ep (opJoin dir cfg.DEFAULT_SCRIPT_FILE)
            cfg.DOCSTRING_PARAM
          author := ep (opJoin dir cfg.DEFAULT_SCRIPT_FILE)
            cfg.AUTHOR_PARAM
          unique_name := get_unique_name dir
          library_path := opJoin dir cfg.COMPONENT_LIB_NAME
          search_paths := [opJoin dir cfg.COMPONENT_LIB_NAME] } := by
  unfold GenericCommand.init verify_file
  rw [h, hs]
  rfl

theorem panel_has_commands_iff (p : PanelM) :
    p.has_commands = true ↔ p.sub_components ≠ [] := by
  unfold PanelM.has_commands
  rw [decide_eq_true_eq]
  exact List.length_pos

/-! ## Claim theorems -/

/-- C1 (counterexample): the claim asserts reconciliation completes
without error even when a child's display name equals a layout entry at
an out-of-range position.  With `layoutOrder = ["A", "A"]` and a single
child named `"A"`, position 1 matches that child, the code reads
`children[1]` and raises `IndexError`: reconciliation does NOT complete
without error. -/
theorem C1_counterexample :
    (process_components_per_layout Comp.name ["A", "A"]
      [⟨"A", 0⟩]).error = true := by decide

/-- C1 (amended): layout entries at positions `i ≥ len(children)` are
silently ignored and reconciliation completes without error, provided no
child's display name equals such an out-of-range entry; a match at an
out-of-range position instead raises an index error, as the
counterexample shows. -/
theorem C1_out_of_range_entries (nm : α → String) (layout : List String)
    (children : List α)
    (h : ∀ (j : Nat) (item : String), layout[j]? = some item →
      children.length ≤ j → ∀ x ∈ children, nm x ≠ item) :
    (process_components_per_layout nm layout children).error = false := by
  unfold process_components_per_layout
  by_cases hg : (layout.isEmpty || children.isEmpty) = true
  · rw [if_pos hg]
  · rw [if_neg hg]
    exact processAux_no_oob_match layout 0 children []
      (fun j item hj hlen => h j item hj (by omega))

/-- C1 (witness): with `layoutOrder = ["B", "C"]` and one child named
`"A"`, the out-of-range entry `"C"` matches no child, and reconciliation
completes without error. -/
theorem C1_witness :
    (process_components_per_layout Comp.name ["B", "C"]
      [⟨"A", 0⟩]).error = false := by
  apply C1_out_of_range_entries
  intro j item hj hlen x hx
  match j, hj with
  | 0, hj => simp at hlen
  | 1, hj =>
    simp only [List.mem_singleton] at hx
    subst hx
    simp at hj
    rw [← hj]
    decide
  | n + 2, hj => simp at hj

/-- C2 (counterexample): with two children sharing the name `"A"` and
`layoutOrder = ["A"]`, the claim's "first match wins" predicts that the
first child (uid 1) occupies position 0; the code instead leaves the
second child (uid 2) there, because the inner scan has no `break` and
every match swaps. -/
theorem C2_counterexample :
    (process_components_per_layout Comp.name ["A"]
        [⟨"A", 1⟩, ⟨"A", 2⟩]).children =
      ([⟨"A", 2⟩, ⟨"A", 1⟩] : List Comp) ∧
    (process_components_per_layout Comp.name ["A"]
        [⟨"A", 1⟩, ⟨"A", 2⟩]).children ≠
      ([⟨"A", 1⟩, ⟨"A", 2⟩] : List Comp) := by
  decide

/-- C2 (amended): the inner scan does not stop at the first matching
child: every matching child is swapped into the layout position in turn,
so for a container holding two children that share the matched display
name (the entry sitting at layout position 0), the LAST matching child
in scan order ends up in that position. -/
theorem C2_last_match_wins (nm : α → String) (c1 c2 : α) (n : String)
    (h1 : nm c1 = n) (h2 : nm c2 = n) :
    (process_components_per_layout nm [n] [c1, c2]).children =
      [c2, c1] := by
  have s1 : scanStep nm n 0 (.ok [c1, c2] false) 0 =
      .ok [c1, c2] true := by
    rw [scanStep]
    simp [h1, swapList]
  have s2 : scanStep nm n 0 (.ok [c1, c2] true) 1 =
      .ok [c2, c1] true := by
    rw [scanStep]
    simp [h2, swapList]
  have hscan : scanChildren nm n 0 [c1, c2] = .ok [c2, c1] true := by
    show scanIdx nm n 0 (List.range 2) (.ok [c1, c2] false) = _
    rw [show List.range 2 = [0, 1] from rfl]
    rw [scanIdx, s1, scanIdx, s2, scanIdx]
  unfold process_components_per_layout
  rw [if_neg (by simp)]
  rw [processAux, processAux, layoutStep_of_scan_ok_true rfl hscan]

/-- C2 (witness): two concrete children named `"N"`; the second one ends
at position 0. -/
theorem C2_witness :
    (process_components_per_layout Comp.name ["N"]
        [⟨"N", 5⟩, ⟨"N", 6⟩]).children =
      ([⟨"N", 6⟩, ⟨"N", 5⟩] : List Comp) :=
  C2_last_match_wins Comp.name ⟨"N", 5⟩ ⟨"N", 6⟩ "N" rfl rfl

/-- C3 (counterexample): iterating twice is NOT idempotent in general:
with two children sharing the display name `"A"` and
`layoutOrder = ["A"]`, the first reconciliation yields
`[uid 2, uid 1]` and the second swaps them back to `[uid 1, uid 2]`. -/
theorem C3_counterexample :
    (process_components_per_layout Comp.name ["A"]
        ((process_components_per_layout Comp.name ["A"]
          [⟨"A", 1⟩, ⟨"A", 2⟩]).children)).children ≠
      (process_components_per_layout Comp.name ["A"]
        [⟨"A", 1⟩, ⟨"A", 2⟩]).children := by
  decide

/-- C3 (amended): when the children's display names are pairwise
distinct, the layout entries are pairwise distinct, and the first
reconciliation completes without error, a second reconciliation leaves
the child sequence unchanged (and also completes without error), so
`children()` called twice with no intervening `addComponent` yields the
same order both times.  Duplicate display names (see the counterexample)
or a display name listed twice in the layout (e.g. children `A B C` with
layout `A A A`) break idempotence. -/
theorem C3_reconcile_idempotent (nm : α → String) (layout : List String)
    (children : List α) (hnames : (children.map nm).Nodup)
    (hlayout : layout.Nodup)
    (herr : (process_components_per_layout nm layout children).error =
      false) :
    (process_components_per_layout nm layout
        ((process_components_per_layout nm layout
          children).children)).children =
      (process_components_per_layout nm layout children).children ∧
    (process_components_per_layout nm layout
        ((process_components_per_layout nm layout
          children).children)).error = false :=
  process_idem (namesInj_of_nodup_map hnames) hlayout herr

/-- C3 (witness): distinct names `A C B`, layout `B A`: reconciling the
reconciled list changes nothing. -/
theorem C3_witness :
    (process_components_per_layout Comp.name ["B", "A"]
        ((process_components_per_layout Comp.name ["B", "A"]
          [⟨"A", 0⟩, ⟨"C", 1⟩, ⟨"B", 2⟩]).children)).children =
      (process_components_per_layout Comp.name ["B", "A"]
        [⟨"A", 0⟩, ⟨"C", 1⟩, ⟨"B", 2⟩]).children ∧
    (process_components_per_layout Comp.name ["B", "A"]
        ((process_components_per_layout Comp.name ["B", "A"]
          [⟨"A", 0⟩, ⟨"C", 1⟩, ⟨"B", 2⟩]).children)).error = false :=
  C3_reconcile_idempotent Comp.name ["B", "A"]
    [⟨"A", 0⟩, ⟨"C", 1⟩, ⟨"B", 2⟩] (by decide) (by decide) (by decide)

/-- C4: with `layoutOrder = ["B", "A"]` and children `[A, C, B]` (with
distinct display names), the first outer iteration swaps positions 0 and
2 giving `[B, C, A]`, the second swaps positions 1 and 2 giving
`[B, A, C]`, which is the final reconciled order; no error occurs. -/
theorem C4_layout_example_trace :
    (layoutStep Comp.name ⟨[⟨"A", 0⟩, ⟨"C", 1⟩, ⟨"B", 2⟩], [], false⟩
        0 "B").children = ([⟨"B", 2⟩, ⟨"C", 1⟩, ⟨"A", 0⟩] : List Comp) ∧
    (layoutStep Comp.name
        ⟨[⟨"B", 2⟩, ⟨"C", 1⟩, ⟨"A", 0⟩], [], false⟩
        1 "A").children = ([⟨"B", 2⟩, ⟨"A", 0⟩, ⟨"C", 1⟩] : List Comp) ∧
    (process_components_per_layout Comp.name ["B", "A"]
        [⟨"A", 0⟩, ⟨"C", 1⟩, ⟨"B", 2⟩]).children =
      ([⟨"B", 2⟩, ⟨"A", 0⟩, ⟨"C", 1⟩] : List Comp) ∧
    (process_components_per_layout Comp.name ["B", "A"]
        [⟨"A", 0⟩, ⟨"C", 1⟩, ⟨"B", 2⟩]).error = false := by
  decide

/-- C5: a layout entry matching no child's display name leaves the child
sequence untouched at that step, appends an advisory log message for the
unmatched item, and continues with no error raised. -/
theorem C5_unmatched_entry_advisory (nm : α → String) (st : RecState α)
    (i : Nat) (item : String) (herr : st.error = false)
    (h : ∀ x ∈ st.children, nm x ≠ item) :
    layoutStep nm st i item =
      { children := st.children,
        advisories := st.advisories ++ [item], error := false } :=
  layoutStep_of_scan_ok_false herr (scanChildren_no_match h)

/-- C5 (witness): one child named `"A"`, entry `"Z"`: the child list is
unchanged, an advisory for `"Z"` is logged, no error. -/
theorem C5_witness :
    layoutStep Comp.name ⟨[⟨"A", 0⟩], [], false⟩ 0 "Z" =
      { children := [⟨"A", 0⟩], advisories := ["Z"], error := false } :=
  C5_unmatched_entry_advisory Comp.name ⟨[⟨"A", 0⟩], [], false⟩ 0 "Z"
    rfl (by decide)

/-- C6: for both containers and commands, construction raises
`PyRevitUnknownFormatError` exactly when the directory does not end with
the type's declared suffix; when it does end with the suffix the
validation step passes (a container is then always produced, and a
command can only fail for the different reason of a missing script). -/
theorem C6_suffix_validation (cfg : PyConfig) (us : UserSettings)
    (fs : FileSystem) (ep : String → String → Option String)
    (type_id dir : String) :
    (GenericContainer.init cfg us fs type_id dir =
        .error .UnknownFormat ↔ endswith dir type_id = false) ∧
    (GenericCommand.init cfg us fs ep type_id dir =
        .error .UnknownFormat ↔ endswith dir type_id = false) ∧
    (endswith dir type_id = true →
      ∃ gc : GenericContainer,
        GenericContainer.init cfg us fs type_id dir = .ok gc) ∧
    (endswith dir type_id = true →
      GenericCommand.init cfg us fs ep type_id dir ≠
        .error .UnknownFormat) := by
  rcases Bool.eq_false_or_eq_true (endswith dir type_id) with h | h
  · refine ⟨?_, ?_, ?_, ?_⟩
    · rw [container_init_valid cfg us fs type_id dir h]
      simp [h]
    · unfold GenericCommand.init
      rw [h]
      cases hv : verify_file fs dir cfg.DEFAULT_SCRIPT_FILE <;> simp
    · intro _
      exact ⟨_, container_init_valid cfg us fs type_id dir h⟩
    · intro _
      unfold GenericCommand.init
      rw [h]
      cases hv : verify_file fs dir cfg.DEFAULT_SCRIPT_FILE <;> simp
  · refine ⟨?_, ?_, ?_, ?_⟩
    · rw [container_init_invalid cfg us fs type_id dir h]
      simp [h]
    · unfold GenericCommand.init
      rw [h]
      simp
    · intro hc
      rw [hc] at h
      cases h
    · intro hc
      rw [hc] at h
      cases h

/-- C6 (witness): a `.panel` directory constructs a container; a
`.pushbutton` directory (even without a script) never raises the
unknown-format error. -/
theorem C6_witness :
    (∃ gc : GenericContainer,
      GenericContainer.init trivConfig trivSettings emptyFS ".panel"
        "/a/Edit.panel" = .ok gc) ∧
    GenericCommand.init trivConfig trivSettings emptyFS noParams
        ".pushbutton" "/a/B.pushbutton" ≠ .error .UnknownFormat :=
  ⟨(C6_suffix_validation trivConfig trivSettings emptyFS noParams
      ".panel" "/a/Edit.panel").2.2.1 (by decide),
   (C6_suffix_validation trivConfig trivSettings emptyFS noParams
      ".pushbutton" "/a/B.pushbutton").2.2.2 (by decide)⟩

/-- C7: a command whose directory passes suffix validation raises
`PyRevitNoScriptFileError` exactly when the default script file does not
exist in the directory, and a command object is produced exactly when
the directory is valid and the script file exists. -/
theorem C7_missing_script (cfg : PyConfig) (us : UserSettings)
    (fs : FileSystem) (ep : String → String → Option String)
    (type_id dir : String) :
    (GenericCommand.init cfg us fs ep type_id dir =
        .error .NoScriptFile ↔
      (endswith dir type_id = true ∧
        fs.pathExists (opJoin dir cfg.DEFAULT_SCRIPT_FILE) = false)) ∧
    ((∃ gcmd : GenericCommand,
        GenericCommand.init cfg us fs ep type_id dir = .ok gcmd) ↔
      (endswith dir type_id = true ∧
        fs.pathExists (opJoin dir cfg.DEFAULT_SCRIPT_FILE) = true)) := by
  unfold GenericCommand.init verify_file
  cases h : endswith dir type_id <;>
    cases hp : fs.pathExists (opJoin dir cfg.DEFAULT_SCRIPT_FILE) <;>
      simp [h, hp]

/-- C8: `uniqueName` equals the sanitization of the concatenation, over
the path segments in order, of each segment's stem whenever the segment
has a non-empty extension (segments without an extension are skipped);
being a function of the directory string alone, it is deterministic. -/
theorem C8_unique_name_pure (directory : String) :
    get_unique_name directory = uniqueNameSpec directory ∧
    ∀ d2 : String, directory = d2 →
      get_unique_name directory = get_unique_name d2 := by
  refine ⟨?_, fun d2 h => by rw [h]⟩
  unfold get_unique_name uniqueNameSpec
  rw [foldl_stems, String.empty_append]

/-- C8 (witness): the docstring example
`/pyRevit.package/pyRevit.tab/Edit.panel`. -/
theorem C8_witness :
    get_unique_name "/pyRevit.package/pyRevit.tab/Edit.panel" =
      uniqueNameSpec "/pyRevit.package/pyRevit.tab/Edit.panel" ∧
    get_unique_name "/pyRevit.package/pyRevit.tab/Edit.panel" =
      get_unique_name "/pyRevit.package/pyRevit.tab/Edit.panel" :=
  ⟨(C8_unique_name_pure "/pyRevit.package/pyRevit.tab/Edit.panel").1,
   (C8_unique_name_pure "/pyRevit.package/pyRevit.tab/Edit.panel").2
     _ rfl⟩

/-- C9 (counterexample): the claim predicts `originalName` is the final
segment with the suffix stripped exactly once.  For the valid directory
`/a/.panel` (final segment `.panel`, suffix `.panel`), stripping once
gives `""`, but `os.path.splitext` treats the all-dots-before-the-dot
basename as having no extension, so construction succeeds with
`originalName = ".panel"`, not `""`. -/
theorem C9_counterexample :
    (GenericContainer.init trivConfig trivSettings emptyFS ".panel"
        "/a/.panel").toOption.map GenericContainer.original_name =
      some ".panel" ∧ (".panel" : String) ≠ "" := by
  constructor
  · rfl
  · decide

/-- C9 (amended): for a valid directory whose final segment is
`stem ++ suffix` (the suffix being a dot followed by a dot-free name,
e.g. `.panel`), construction succeeds — for a command, when its script
file exists — and `originalName` equals the final segment with the
suffix stripped exactly once, PROVIDED the stem contains at least one
non-dot character (the counterexample shows the all-dot/empty-stem case
deviates). -/
theorem C9_original_name (cfg : PyConfig) (us : UserSettings)
    (fs : FileSystem) (ep : String → String → Option String)
    (type_id dir stem rest : String)
    (hsuffix : type_id.toList = '.' :: rest.toList)
    (hrest : ∀ c ∈ rest.toList, c ≠ '.')
    (hstem : ∃ c ∈ stem.toList, c ≠ '.')
    (hbase : basename dir = stem ++ type_id)
    (hvalid : endswith dir type_id = true) :
    (∃ gc : GenericContainer,
      GenericContainer.init cfg us fs type_id dir = .ok gc ∧
        gc.original_name = stem) ∧
    (fs.pathExists (opJoin dir cfg.DEFAULT_SCRIPT_FILE) = true →
      ∃ gcmd : GenericCommand,
        GenericCommand.init cfg us fs ep type_id dir = .ok gcmd ∧
          gcmd.original_name = stem) := by
  have hname : get_name dir = stem := by
    unfold get_name
    rw [hbase,
      splitext_stem_ext stem type_id ⟨rest.toList, hsuffix, hrest⟩ hstem]
  constructor
  · exact ⟨_, container_init_valid cfg us fs type_id dir hvalid, hname⟩
  · intro hscript
    exact ⟨_, command_init_valid cfg us fs ep type_id dir hvalid hscript,
      hname⟩

/-- C9 (witness): `/a/Edit.panel` with suffix `.panel` yields
`originalName = "Edit"`; with a script file present the command at
`/a/B.pushbutton` yields `originalName = "B"`. -/
theorem C9_witness :
    (∃ gc : GenericContainer,
      GenericContainer.init trivConfig trivSettings
        (oneFileFS "/a/Edit.panel/script.py") ".panel"
        "/a/Edit.panel" = .ok gc ∧ gc.original_name = "Edit") ∧
    (∃ gcmd : GenericCommand,
      GenericCommand.init trivConfig trivSettings
        (oneFileFS "/a/Edit.panel/script.py") noParams ".panel"
        "/a/Edit.panel" = .ok gcmd ∧ gcmd.original_name = "Edit") := by
  have h := C9_original_name trivConfig trivSettings
    (oneFileFS "/a/Edit.panel/script.py") noParams ".panel"
    "/a/Edit.panel" "Edit" "panel" (by decide) (by decide) (by decide)
    (by decide) (by decide)
  exact ⟨h.1, h.2 (by decide)⟩

/-- C10: `Tab.has_commands` (when it returns, i.e. reconciliation raises
no error) is true exactly when some child panel has at least one direct
sub-component: the tab recurses one level into its panels, each panel
answering with its shallow, non-recursive count. -/
theorem C10_tab_has_commands (t : TabM) (b : Bool)
    (h : t.has_commands = some b) :
    (b = true ↔ ∃ p ∈ t.panels, p.sub_components ≠ []) ∧
    (∀ p : PanelM, p.has_commands = true ↔ p.sub_components ≠ []) := by
  refine ⟨?_, panel_has_commands_iff⟩
  unfold TabM.has_commands at h
  by_cases he : (process_components_per_layout PanelM.name t.layout_list
      t.panels).error = true
  · rw [if_pos he] at h
    cases h
  · rw [if_neg he] at h
    have hb := Option.some.inj h
    rw [← hb, List.any_eq_true]
    constructor
    · rintro ⟨p, hp, hcmd⟩
      exact ⟨p, (process_children_mem _ _ p).mp hp,
        (panel_has_commands_iff p).mp hcmd⟩
    · rintro ⟨p, hp, hne⟩
      exact ⟨p, (process_children_mem _ _ p).mpr hp,
        (panel_has_commands_iff p).mpr hne⟩

/-- C10 (witness): a tab with one panel holding one sub-component
reports `some true`, and indeed some panel is non-empty. -/
theorem C10_witness :
    (true = true ↔
      ∃ p ∈ [(⟨"P", [⟨"cmd", 0⟩]⟩ : PanelM)], p.sub_components ≠ []) ∧
    (∀ p : PanelM, p.has_commands = true ↔ p.sub_components ≠ []) :=
  C10_tab_has_commands ⟨[], [⟨"P", [⟨"cmd", 0⟩]⟩]⟩ true (by decide)

end PyRevit
